import Mathlib

/-!
Verification development for the snappyframed package: a shallow embedding in
Lean 4 of the snappy framed-stream encoder (writer.go) and decoder (reader.go),
with theorems checking the natural-language specification against the code.

Byte streams are modelled as lists of naturals; machine uint32 arithmetic is
modelled on Nat with explicit reduction modulo 2^32 at the points where the Go
code wraps.  The external snappy block codec (out of scope for the package, per
the spec) is an abstract structure whose contract appears as hypotheses.
-/

namespace Snappyframed

/-! ### Format constants

The chunk tags and size limits used by reader.go and writer.go.  The constants
file itself is not among the provided sources; the values are fixed by the
streamID literal in writer.go, the tag ranges tested in reader.go, and the
spec's wire-format table (MaxBlockSize = 65536; tags 0x00/0x01/0xfe/0xff). -/

def blockCompressed : Nat := 0x00

def blockUncompressed : Nat := 0x01

def blockPadding : Nat := 0xfe

def blockStreamIdentifier : Nat := 0xff

def MaxBlockSize : Nat := 65536

/-- Internal alias used by the snappyframed variants of the sources
(maxBlockSize = MaxBlockSize = 65536). -/
def maxBlockSize : Nat := 65536

/-- Modelled from the spec: the maximum accepted encoded-block payload is the
snappy worst-case encoded length of a MaxBlockSize block (the constant's
definition, snappy.MaxEncodedLen(maxBlockSize) = 32 + n + n/6, is not among the
provided sources; reader.go only compares against it). -/
def maxEncodedBlockSize : Nat := 32 + 65536 + 65536 / 6

/-- Byte literal from writer.go: stream identifier chunk, header included. -/
def streamID : List Nat := [0xff, 0x06, 0x00, 0x00, 0x73, 0x4e, 0x61, 0x50, 0x70, 0x59]

/-! ### CRC32-C

Go's crc32.Checksum with the Castagnoli table, written in the equivalent
table-free reflected form (polynomial 0x82f63b78).  Each input byte is reduced
mod 256, embedding Go's uint8 type. -/

def crcStep (crc : Nat) : Nat :=
  if crc % 2 = 1 then (crc >>> 1) ^^^ 0x82f63b78 else crc >>> 1

def crcByte (crc b : Nat) : Nat :=
  crcStep (crcStep (crcStep (crcStep (crcStep (crcStep (crcStep (crcStep (crc ^^^ b % 256))))))))

def crc32Aux (crc : Nat) : List Nat → Nat
  | [] => crc
  | b :: bs => crc32Aux (crcByte crc b) bs

def crc32C (data : List Nat) : Nat :=
  crc32Aux 0xffffffff data ^^^ 0xffffffff

/-! ### Checksum masking (writer.go maskChecksum, reader.go unmaskChecksum) -/

/-- Embeds maskChecksum: ((c >> 15) | (c << 17)) + 0xa282ead8 in uint32
arithmetic; the left shift and the addition wrap modulo 2^32. -/
def maskChecksum (c : Nat) : Nat :=
  (((c >>> 15) ||| ((c <<< 17) % 4294967296)) + 0xa282ead8) % 4294967296

/-- Embeds unmaskChecksum: x := c - 0xa282ead8 (wrapping uint32 subtraction),
then (x >> 17) | (x << 15) with the left shift wrapping modulo 2^32. -/
def unmaskChecksum (c : Nat) : Nat :=
  let x := (c + (4294967296 - 0xa282ead8)) % 4294967296
  (x >>> 17) ||| ((x <<< 15) % 4294967296)

/-! ### Little-endian length and checksum fields -/

/-- Embeds decodeLength (reader.go): 24-bit little-endian value from 3 bytes. -/
def decodeLength (b0 b1 b2 : Nat) : Nat :=
  b0 ||| (b1 <<< 8) ||| (b2 <<< 16)

/-- Embeds the 32-bit little-endian load in decodeBlock (reader.go):
uint32(c0) | uint32(c1) << 8 | uint32(c2) << 16 | uint32(c3) << 24. -/
def decodeLE32 (b0 b1 b2 b3 : Nat) : Nat :=
  b0 ||| (b1 <<< 8) ||| (b2 <<< 16) ||| (b3 <<< 24)

/-- Embeds the 3-byte little-endian length stores in writeHeader (writer.go):
byte(length), byte(length >> 8), byte(length >> 16). -/
def encLE24 (n : Nat) : List Nat := [n % 256, (n >>> 8) % 256, (n >>> 16) % 256]

/-- Embeds the 4-byte little-endian checksum store in writeHeader (writer.go). -/
def encLE32 (n : Nat) : List Nat :=
  [n % 256, (n >>> 8) % 256, (n >>> 16) % 256, (n >>> 24) % 256]

/-! ### Arithmetic helper lemmas -/

theorem lor_lo_hi (x y k : Nat) (hx : x < 2 ^ k) : x ||| (y <<< k) = x + 2 ^ k * y := by
  rw [Nat.lor_comm, Nat.shiftLeft_eq, Nat.mul_comm, ← Nat.mul_add_lt_is_or hx, Nat.add_comm]

theorem shiftRight_div (x k : Nat) : x >>> k = x / 2 ^ k := Nat.shiftRight_eq_div_pow x k

theorem shiftLeft_mod_pow (x k m : Nat) (h : k ≤ m) :
    (x <<< k) % 2 ^ m = (x % 2 ^ (m - k)) * 2 ^ k := by
  rw [Nat.shiftLeft_eq]
  have : (2 : Nat) ^ m = 2 ^ (m - k) * 2 ^ k := by
    rw [← pow_add]
    congr 1
    omega
  rw [this, Nat.mul_mod_mul_right]

theorem decodeLength_encLE24 (n : Nat) (h : n < 2 ^ 24) :
    decodeLength (n % 256) ((n >>> 8) % 256) ((n >>> 16) % 256) = n := by
  unfold decodeLength
  have h8 : n % 256 < 2 ^ 8 := by omega
  rw [lor_lo_hi _ _ _ h8]
  have h16 : n % 256 + 2 ^ 8 * ((n >>> 8) % 256) < 2 ^ 16 := by
    have := @Nat.mod_lt (n >>> 8) 256 (by norm_num)
    omega
  rw [lor_lo_hi _ _ _ h16]
  rw [shiftRight_div, shiftRight_div]
  norm_num
  omega

theorem decodeLE32_encLE32 (n : Nat) (h : n < 2 ^ 32) :
    decodeLE32 (n % 256) ((n >>> 8) % 256) ((n >>> 16) % 256) ((n >>> 24) % 256) = n := by
  unfold decodeLE32
  have h8 : n % 256 < 2 ^ 8 := by omega
  rw [lor_lo_hi _ _ _ h8]
  have h16 : n % 256 + 2 ^ 8 * ((n >>> 8) % 256) < 2 ^ 16 := by
    have := @Nat.mod_lt (n >>> 8) 256 (by norm_num)
    omega
  rw [lor_lo_hi _ _ _ h16]
  have h24 : n % 256 + 2 ^ 8 * ((n >>> 8) % 256) + 2 ^ 16 * ((n >>> 16) % 256) < 2 ^ 24 := by
    have := @Nat.mod_lt (n >>> 8) 256 (by norm_num)
    have := @Nat.mod_lt (n >>> 16) 256 (by norm_num)
    omega
  rw [lor_lo_hi _ _ _ h24]
  rw [shiftRight_div, shiftRight_div, shiftRight_div]
  norm_num
  omega

theorem maskChecksum_lt (c : Nat) : maskChecksum c < 2 ^ 32 := by
  unfold maskChecksum
  have : (4294967296 : Nat) = 2 ^ 32 := by norm_num
  omega

theorem maskChecksum_eq (c : Nat) (h : c < 2 ^ 32) :
    maskChecksum c = ((c % 2 ^ 15) * 2 ^ 17 + c / 2 ^ 15 + 0xa282ead8) % 2 ^ 32 := by
  unfold maskChecksum
  have hm : (4294967296 : Nat) = 2 ^ 32 := by norm_num
  rw [hm, shiftLeft_mod_pow _ _ _ (by norm_num), shiftRight_div]
  have hdiv : c / 2 ^ 15 < 2 ^ 17 := by omega
  rw [show (32 - 17 : Nat) = 15 from rfl]
  rw [show (c % 2 ^ 15) * 2 ^ 17 = (c % 2 ^ 15) <<< 17 from (Nat.shiftLeft_eq _ _).symm]
  rw [lor_lo_hi _ _ _ hdiv, Nat.shiftLeft_eq]
  ring_nf

theorem unmask_mask (c : Nat) (h : c < 2 ^ 32) : unmaskChecksum (maskChecksum c) = c := by
  rw [maskChecksum_eq c h]
  unfold unmaskChecksum
  have hm : (4294967296 : Nat) = 2 ^ 32 := by norm_num
  simp only [hm]
  set R : Nat := (c % 2 ^ 15) * 2 ^ 17 + c / 2 ^ 15 with hR
  have hRlt : R < 2 ^ 32 := by
    have h1 : c % 2 ^ 15 < 2 ^ 15 := Nat.mod_lt _ (by norm_num)
    have h2 : c / 2 ^ 15 < 2 ^ 17 := by omega
    have : (c % 2 ^ 15) * 2 ^ 17 ≤ (2 ^ 15 - 1) * 2 ^ 17 := by
      exact Nat.mul_le_mul_right _ (by omega)
    omega
  have hx : ((R + 0xa282ead8) % 2 ^ 32 + (2 ^ 32 - 0xa282ead8)) % 2 ^ 32 = R := by
    omega
  rw [hx]
  rw [shiftLeft_mod_pow _ _ _ (by norm_num), shiftRight_div]
  have hRdiv : R / 2 ^ 17 = c % 2 ^ 15 := by
    have h2 : c / 2 ^ 15 < 2 ^ 17 := by omega
    rw [hR]
    omega
  have hRmod : R % 2 ^ (32 - 15) = c / 2 ^ 15 := by
    have h2 : c / 2 ^ 15 < 2 ^ 17 := by omega
    have h1 : c % 2 ^ 15 < 2 ^ 15 := Nat.mod_lt _ (by norm_num)
    rw [show (32 - 15 : Nat) = 17 from rfl, hR]
    omega
  rw [hRdiv, hRmod]
  rw [show (c / 2 ^ 15) * 2 ^ 15 = (c / 2 ^ 15) <<< 15 from (Nat.shiftLeft_eq _ _).symm]
  rw [lor_lo_hi _ _ _ (Nat.mod_lt _ (by norm_num))]
  omega

/-! ### The external block codec

The snappy block primitive (snappy.Encode, snappy.Decode, snappy.DecodedLen)
is an external collaborator of the package.  It is abstracted as a structure;
the contract the spec gives it (decode inverts encode, DecodedLen reports the
decoded length) appears as hypotheses of the theorems that need it. -/

structure BlockCodec where
  encode : List Nat → List Nat
  decode : List Nat → Option (List Nat)
  decodedLen : List Nat → Option Nat

/-- Concrete executable codec used to instantiate theorem hypotheses in
witnesses: the single block [7, 7, 7, 7] "compresses" to [42]; every other
block is stored behind a leading 0. -/
def toyEncode (p : List Nat) : List Nat :=
  if p = [7, 7, 7, 7] then [42] else 0 :: p

def toyDecode (b : List Nat) : Option (List Nat) :=
  if b = [42] then some [7, 7, 7, 7]
  else
    match b with
    | 0 :: q => some q
    | _ => none

def toyCodec : BlockCodec :=
  { encode := toyEncode
    decode := toyDecode
    decodedLen := fun b => (toyDecode b).map List.length }

theorem toy_decode_encode (p : List Nat) : toyCodec.decode (toyCodec.encode p) = some p := by
  by_cases h : p = [7, 7, 7, 7] <;>
    simp [toyCodec, toyEncode, toyDecode, h]

theorem toy_decodedLen_encode (p : List Nat) :
    toyCodec.decodedLen (toyCodec.encode p) = some p.length := by
  by_cases h : p = [7, 7, 7, 7] <;>
    simp [toyCodec, toyEncode, toyDecode, h]

theorem toy_coherent (b o : List Nat) (h : toyCodec.decode b = some o) :
    toyCodec.decodedLen b = some o.length := by
  simp [toyCodec] at h ⊢
  rw [h]
  simp

/-! ### Writer: frame encoding

writeFrame embeds one pass of writer.write together with writeHeader
(src/writer.go, snappyframed variant, lines 304-371): encode the block,
fall back to a literal block when compression does not shrink it, and emit
the 8-byte header (tag, 3-byte little-endian length of encoded content + 4,
4-byte little-endian masked CRC32 of the raw bytes) followed by the block. -/

def writeFrame (c : BlockCodec) (p : List Nat) : List Nat :=
  let enc := c.encode p
  if enc.length ≥ p.length then
    blockUncompressed ::
      (encLE24 (p.length + 4) ++ encLE32 (maskChecksum (crc32C p)) ++ p)
  else
    blockCompressed ::
      (encLE24 (enc.length + 4) ++ encLE32 (maskChecksum (crc32C p)) ++ enc)

/-! ### Writer: chunking

writer.Write (src/writer.go:279-299) splits its input into consecutive slices
of at most maxBlockSize bytes.  The fuel argument makes the recursion
structural; the wrapper supplies fuel that the sufficiency lemmas below show
is always enough. -/

def chunksF : Nat → List Nat → List (List Nat)
  | 0, _ => []
  | fuel + 1, bs =>
    if bs = [] then []
    else bs.take maxBlockSize :: chunksF fuel (bs.drop maxBlockSize)

def chunks (bs : List Nat) : List (List Nat) := chunksF (bs.length + 1) bs

/-- Emits the frames of a list of blocks, one writer.write call per block. -/
def encodeBlocks (c : BlockCodec) (bs : List (List Nat)) : List Nat :=
  (bs.map (writeFrame c)).flatten

/-- Embeds the full byte stream produced by writing B through the Writer and
flushing: writer.Write sends the stream identifier before the first data
frame; a write of no bytes emits nothing at all (the loop body never runs and
the stream identifier is only sent inside writer.write). -/
def encodeStream (c : BlockCodec) (B : List Nat) : List Nat :=
  if B = [] then [] else streamID ++ encodeBlocks c (chunks B)

/-! ### Writer: error plumbing

Embeds the Writer against a fallible underlying sink, for the claims about
Write's return contract.  The sink accepts a total of at most cap bytes and
fails on the write that would exceed it. -/

inductive WriteErr where
  | blockTooLarge
  | sinkErr
  | closed
  deriving DecidableEq

structure WriterState where
  err : Option WriteErr
  sentStreamID : Bool
  sinkAccepted : Nat
  deriving DecidableEq

def initWriter : WriterState := { err := none, sentStreamID := false, sinkAccepted := 0 }

def sinkWrite (cap : Nat) (st : WriterState) (bs : List Nat) : WriterState × Option WriteErr :=
  if st.sinkAccepted + bs.length ≤ cap then
    ({ st with sinkAccepted := st.sinkAccepted + bs.length }, none)
  else
    ({ st with sinkAccepted := cap }, some .sinkErr)

/-- Embeds writer.write (src/writer.go:304-353): reject blocks over
maxBlockSize, choose compressed or literal encoding, send the stream
identifier first if it has not been sent, then the header and the block.
Any sink failure is returned with a zero count. -/
def writerWriteOne (c : BlockCodec) (cap : Nat) (st : WriterState) (p : List Nat) :
    (Nat × Option WriteErr) × WriterState :=
  if p.length > maxBlockSize then ((0, some .blockTooLarge), st)
  else
    let frame := writeFrame c p
    if st.sentStreamID then
      match sinkWrite cap st frame with
      | (st', none) => ((p.length, none), st')
      | (st', some e) => ((0, some e), st')
    else
      match sinkWrite cap st streamID with
      | (st', none) =>
        let st'' := { st' with sentStreamID := true }
        match sinkWrite cap st'' frame with
        | (st3, none) => ((p.length, none), st3)
        | (st3, some e) => ((0, some e), st3)
      | (st', some e) => ((0, some e), st')

/-- Embeds the loop of writer.Write (src/writer.go:284-298): each slice is
passed to writer.write; a failure latches the error and returns a zero
count; otherwise the counts accumulate. -/
def writerWriteLoop (c : BlockCodec) (cap : Nat) (st : WriterState) :
    List (List Nat) → Nat → (Nat × Option WriteErr) × WriterState
  | [], total => ((total, none), st)
  | p :: rest, total =>
    match writerWriteOne c cap st p with
    | ((n, none), st') => writerWriteLoop c cap st' rest (total + n)
    | ((_, some e), st') => ((0, some e), { st' with err := some e })

/-- Embeds writer.Write (src/writer.go:279-299). -/
def writerWrite (c : BlockCodec) (cap : Nat) (st : WriterState) (p : List Nat) :
    (Nat × Option WriteErr) × WriterState :=
  match st.err with
  | some e => ((0, some e), st)
  | none => writerWriteLoop c cap st (chunks p) 0

/-! ### Reader: errors -/

inductive ReadErr where
  /-- io.EOF from the header read: clean end of stream. -/
  | eof
  /-- io.ErrUnexpectedEOF: truncation inside a header or a declared payload. -/
  | unexpectedEOF
  | missingStreamID
  /-- invalid stream identifier length (header differs from streamID[:4]). -/
  | badStreamIDLength
  /-- invalid stream identifier block (payload differs from "sNaPpY"). -/
  | badStreamIDBlock
  | unskippableChunk (tag : Nat)
  /-- encoded block data too large. -/
  | encodedTooLarge
  /-- decoded block data too large. -/
  | decodedTooLarge
  /-- snappy.DecodedLen failure on a compressed chunk's body. -/
  | decodedLenErr
  /-- snappy.Decode failure on a compressed chunk's body. -/
  | snappyDecodeErr
  | checksumMismatch
  /-- models the Go slice-bounds panic in decodeBlock when a data chunk
  declares a length below 4 (buf[:4] / buf[4:] on a shorter buf). -/
  | lengthBoundsPanic
  /-- failure reported by a downstream sink (WriteTo's destination). -/
  | sinkErr
  /-- artificial constructor for fuel exhaustion in the fuelled loops; the
  sufficiency lemmas show the wrappers never produce it. -/
  | outOfFuel
  deriving DecidableEq

/-- Little-endian uint32 load from the first four bytes of a list, as done on
the crc32le prefix in decodeBlock (src/reader.go:187). -/
def storedChecksum (bs : List Nat) : Nat :=
  decodeLE32 (bs.getD 0 0) (bs.getD 1 0) (bs.getD 2 0) (bs.getD 3 0)

/-! ### Reader: one data chunk

decodeBlockFrame embeds Reader.readBlock plus Reader.decodeBlock
(src/reader.go:159-237) applied to a data chunk whose header declared the
given tag and length, with input the bytes following the header.  It returns
the verified decoded bytes and the unconsumed remainder of the input. -/

def decodeBlockFrame (c : BlockCodec) (tag len : Nat) (input : List Nat) :
    Except ReadErr (List Nat × List Nat) :=
  if len > maxEncodedBlockSize + 4 then .error .encodedTooLarge
  else if input.length < len then .error .unexpectedEOF
  else
    let buf := input.take len
    let rem := input.drop len
    if len < 4 then .error .lengthBoundsPanic
    else
      let crcBytes := buf.take 4
      let body := buf.drop 4
      match (if tag = blockCompressed then c.decodedLen body else some body.length) with
      | none => .error .decodedLenErr
      | some declen =>
        if declen > MaxBlockSize then .error .decodedTooLarge
        else
          match (if tag = blockCompressed then c.decode body else some body) with
          | none => .error .snappyDecodeErr
          | some blockdata =>
            let checksum := unmaskChecksum (storedChecksum crcBytes)
            if checksum ≠ crc32C blockdata then .error .checksumMismatch
            else .ok (blockdata, rem)

/-! ### Reader: the chunk dispatch loop

nextFrameF embeds Reader.nextFrame together with Reader.readStreamID and
Reader.discardBlock (src/reader.go:110-237): read a 4-byte header, consume
stream identifiers and skippable chunks in a loop, decode one data chunk, or
fail.  It returns the seen-stream-identifier flag as left by the loop, and on
success the decoded bytes and the remaining input.  The fuel argument makes
the loop structural; every iteration consumes at least 4 bytes, so the
wrapper's fuel is always sufficient (lemmas below). -/

def nextFrameF (c : BlockCodec) : Nat → Bool → List Nat → Bool × Except ReadErr (List Nat × List Nat)
  | 0, seen, _ => (seen, .error .outOfFuel)
  | fuel + 1, seen, input =>
    if input = [] then (seen, .error .eof)
    else if input.length < 4 then (seen, .error .unexpectedEOF)
    else
      let tag := input.getD 0 0
      let len := decodeLength (input.getD 1 0) (input.getD 2 0) (input.getD 3 0)
      let rest := input.drop 4
      if tag = blockStreamIdentifier then
        if input.take 4 ≠ streamID.take 4 then (seen, .error .badStreamIDLength)
        else if rest.length < 6 then (seen, .error .unexpectedEOF)
        else if rest.take 6 ≠ streamID.drop 4 then (seen, .error .badStreamIDBlock)
        else nextFrameF c fuel true (rest.drop 6)
      else if seen = false then (seen, .error .missingStreamID)
      else if tag = blockCompressed ∨ tag = blockUncompressed then
        (seen, decodeBlockFrame c tag len rest)
      else if tag = blockPadding ∨ (0x80 ≤ tag ∧ tag ≤ 0xfd) then
        if rest.length < len then (seen, .error .unexpectedEOF)
        else nextFrameF c fuel seen (rest.drop len)
      else
        if rest.length < len then (seen, .error .unexpectedEOF)
        else (seen, .error (.unskippableChunk tag))

def nextFrame (c : BlockCodec) (seen : Bool) (input : List Nat) :
    Bool × Except ReadErr (List Nat × List Nat) :=
  nextFrameF c (input.length + 1) seen input

instance {ε α : Type} [DecidableEq ε] [DecidableEq α] : DecidableEq (Except ε α)
  | .error e, .error f => if h : e = f then .isTrue (by rw [h]) else .isFalse (by simp [h])
  | .error _, .ok _ => .isFalse (by simp)
  | .ok _, .error _ => .isFalse (by simp)
  | .ok a, .ok b => if h : a = b then .isTrue (by rw [h]) else .isFalse (by simp [h])

/-! ### Reader: the pull-until-end loop

decodeLoopF iterates nextFrame, accumulating decoded bytes, until the header
read reports a clean end of stream; any other error is fatal.  This is the
loop of Reader.WriteTo (src/reader.go:52-69) run against an infallible sink,
and equally the effect of reading the whole stream through Reader.Read. -/

def decodeLoopF (c : BlockCodec) : Nat → Bool → List Nat → List Nat → Except ReadErr (List Nat)
  | 0, _, _, _ => .error .outOfFuel
  | fuel + 1, seen, input, acc =>
    match nextFrame c seen input with
    | (_, .error .eof) => .ok acc
    | (_, .error e) => .error e
    | (seen', .ok (out, rem)) => decodeLoopF c fuel seen' rem (acc ++ out)

def decodeLoop (c : BlockCodec) (seen : Bool) (input acc : List Nat) : Except ReadErr (List Nat) :=
  decodeLoopF c (input.length + 1) seen input acc

/-- Decoding an entire input stream from a fresh Reader: the pending
decoded-byte total a caller obtains by reading until end of stream. -/
def decodeStream (c : BlockCodec) (input : List Nat) : Except ReadErr (List Nat) :=
  decodeLoop c false input []

/-! ### Reader: state and the Read / Reset operations -/

structure ReaderState where
  err : Option ReadErr
  seen : Bool
  buf : List Nat
  input : List Nat
  deriving DecidableEq

/-- State of a Reader freshly returned by NewReader bound to the given input. -/
def initReader (input : List Nat) : ReaderState :=
  { err := none, seen := false, buf := [], input := input }

/-- Embeds Reader.Reset (src/reader.go:76-80): r.err = nil; r.reader = rnew;
r.buf.Truncate(0).  The seenStreamID field is not touched by the Go code, and
accordingly is carried over here unchanged. -/
def readerReset (s : ReaderState) (newInput : List Nat) : ReaderState :=
  { err := none, seen := s.seen, buf := [], input := newInput }

/-- Embeds Reader.read (src/reader.go:82-86): bytes.Buffer.Read into a
caller buffer of length n, with the result error latched into r.err (io.EOF
when the pending buffer is empty and n is positive, nil otherwise). -/
def readerServe (s : ReaderState) (n : Nat) : (List Nat × Option ReadErr) × ReaderState :=
  if s.buf = [] ∧ n ≠ 0 then (([], some .eof), { s with err := some .eof })
  else ((s.buf.take n, none), { s with err := none, buf := s.buf.drop n })

/-- Embeds Reader.Read (src/reader.go:91-108): return a latched error;
otherwise when the pending buffer holds fewer than n bytes decode one data
chunk into it via nextFrame (serving the buffer anyway on clean end of
stream, latching any other error), then serve from the buffer.  On the
error paths the input position is left at its pre-call value: every non-EOF
error latches the state, and re-running nextFrame at the old position is
deterministic, so this is observationally faithful. -/
def readerRead (c : BlockCodec) (s : ReaderState) (n : Nat) :
    (List Nat × Option ReadErr) × ReaderState :=
  match s.err with
  | some e => (([], some e), s)
  | none =>
    if s.buf.length < n then
      match nextFrame c s.seen s.input with
      | (seen', .error .eof) => readerServe { s with seen := seen' } n
      | (seen', .error e) => (([], some e), { s with seen := seen', err := some e })
      | (seen', .ok (out, rem)) =>
        readerServe { s with seen := seen', buf := s.buf ++ out, input := rem } n
    else readerServe s n

/-! ### Reader: push mode (WriteTo) and the buffer-fallback forwarder

Embeds Reader.WriteTo and bufferFallbackWriter from the snappyframed sources
(src/unnamed/part_001, first file: WriteTo lines 52-90, forwarder lines
91-126).  The sink is modelled as accepting at most cap bytes in total and
failing on the write that would exceed that, accepting the part that fits. -/

structure FallbackState where
  /-- Total bytes the sink has accepted (for the capacity model). -/
  sinkUsed : Nat
  /-- w.n: bytes successfully written to the sink through the forwarder. -/
  written : Nat
  /-- whether w.writerErr is set. -/
  failed : Bool
  /-- bytes diverted into the reader's pending buffer after a sink failure. -/
  buffered : List Nat
  deriving DecidableEq

/-- Embeds bufferFallbackWriter.Write: once failed, append to the buffer;
otherwise forward to the sink, and on a short sink write record the error,
count the accepted part, and buffer the remainder.  The forwarder itself
always reports success to its caller. -/
def fbWrite (cap : Nat) (fb : FallbackState) (b : List Nat) : FallbackState :=
  if fb.failed then { fb with buffered := fb.buffered ++ b }
  else
    let m := min b.length (cap - fb.sinkUsed)
    if m = b.length then { fb with sinkUsed := fb.sinkUsed + m, written := fb.written + m }
    else
      { sinkUsed := fb.sinkUsed + m, written := fb.written + m, failed := true,
        buffered := fb.buffered ++ b.drop m }

/-- Embeds the loop of Reader.WriteTo: decode one chunk through the
forwarder; if the forwarder recorded a sink error, return n + w.n with the
sink's error, leaving the buffered bytes as the reader's pending buffer and
the reader's own error unlatched; on clean end of stream return n with no
error; on a decode error latch it. -/
def writeToLoopF (c : BlockCodec) (cap : Nat) :
    Nat → Bool → List Nat → FallbackState → Nat → (Nat × Option ReadErr) × ReaderState
  | 0, seen, input, fb, n =>
    ((n, some .outOfFuel), { err := some .outOfFuel, seen := seen, buf := fb.buffered, input := input })
  | fuel + 1, seen, input, fb, n =>
    match nextFrame c seen input with
    | (seen', .error .eof) =>
      ((n, none), { err := none, seen := seen', buf := fb.buffered, input := input })
    | (seen', .error e) =>
      ((n, some e), { err := some e, seen := seen', buf := fb.buffered, input := input })
    | (seen', .ok (out, rem)) =>
      let fb' := fbWrite cap fb out
      if fb'.failed then
        ((n + fb'.written, some .sinkErr),
          { err := none, seen := seen', buf := fb'.buffered, input := rem })
      else writeToLoopF c cap fuel seen' rem fb' (n + out.length)

/-- Embeds Reader.WriteTo: a latched error is returned at once; the pending
buffer is first written directly to the sink (a short write returns the
sink's error with the unwritten bytes kept buffered and no error latched);
then the loop runs with a fresh forwarder whose byte count starts at zero. -/
def readerWriteTo (c : BlockCodec) (cap : Nat) (s : ReaderState) :
    (Nat × Option ReadErr) × ReaderState :=
  match s.err with
  | some e => ((0, some e), s)
  | none =>
    if s.buf.length ≤ cap then
      writeToLoopF c cap (s.input.length + 1) s.seen s.input
        { sinkUsed := s.buf.length, written := 0, failed := false, buffered := [] }
        s.buf.length
    else
      ((cap, some .sinkErr), { s with buf := s.buf.drop cap })

/-! ### Concrete example streams for the claims

Small streams built with the toy codec; both data chunks are stored as
literal (uncompressed) blocks since the toy encoder never shrinks them. -/

def exChunkStream : List Nat :=
  streamID ++ writeFrame toyCodec [5] ++ writeFrame toyCodec [7]

def exOneStream : List Nat := streamID ++ writeFrame toyCodec [9]

def exNoMarker : List Nat := writeFrame toyCodec [3]

/-! ### Fuel sufficiency for the dispatch loop -/

theorem decodeBlockFrame_ok_rem (c : BlockCodec) (tag len : Nat) (input out rem : List Nat)
    (h : decodeBlockFrame c tag len input = .ok (out, rem)) :
    rem = input.drop len ∧ len ≤ input.length := by
  simp only [decodeBlockFrame] at h
  repeat' split at h
  all_goals
    first
    | exact Except.noConfusion h
    | (injection h with h; injection h with hbd hrm; subst hrm; exact ⟨rfl, by omega⟩)

theorem nextFrameF_congr (c : BlockCodec) :
    ∀ f g seen input, input.length < f → input.length < g →
      nextFrameF c f seen input = nextFrameF c g seen input := by
  intro f
  induction f using Nat.strong_induction_on with
  | _ f ih =>
    intro g seen input hf hg
    match f, g with
    | f' + 1, g' + 1 =>
      simp only [nextFrameF]
      split_ifs with h0 h4 ht h1 h2 h3 hseen hdata hskip hlen hlen'
      all_goals try rfl
      · -- stream identifier consumed, loop continues
        have hlt : ((input.drop 4).drop 6).length < f' ∧ ((input.drop 4).drop 6).length < g' := by
          simp only [List.length_drop]
          omega
        exact ih f' (Nat.lt_succ_self f') g' true _ hlt.1 hlt.2
      · -- skippable chunk consumed, loop continues
        have hlt : ((input.drop 4).drop
            (decodeLength (input.getD 1 0) (input.getD 2 0) (input.getD 3 0))).length < f' ∧
            ((input.drop 4).drop
            (decodeLength (input.getD 1 0) (input.getD 2 0) (input.getD 3 0))).length < g' := by
          simp only [List.length_drop]
          omega
        exact ih f' (Nat.lt_succ_self f') g' seen _ hlt.1 hlt.2

theorem nextFrameF_ok_len (c : BlockCodec) :
    ∀ f seen input s' out rem, input.length < f →
      nextFrameF c f seen input = (s', .ok (out, rem)) → rem.length < input.length := by
  intro f
  induction f using Nat.strong_induction_on with
  | _ f ih =>
    intro seen input s' out rem hf h
    match f with
    | f' + 1 =>
      simp only [nextFrameF] at h
      split_ifs at h with h0 h4 ht h1 h2 h3 hseen hdata hskip hlen hlen'
      all_goals try exact Except.noConfusion (congrArg Prod.snd h)
      · -- stream identifier branch: recursion on a strictly smaller input
        have hrec := ih f' (Nat.lt_succ_self f') true _ s' out rem
          (by simp only [List.length_drop]; omega) h
        simp only [List.length_drop] at hrec
        omega
      · -- data chunk branch
        obtain ⟨hrem, hle⟩ := decodeBlockFrame_ok_rem c _ _ _ _ _ (congrArg Prod.snd h)
        subst hrem
        simp only [List.length_drop]
        omega
      · -- skippable branch: recursion on a strictly smaller input
        have hrec := ih f' (Nat.lt_succ_self f') seen _ s' out rem
          (by simp only [List.length_drop]; omega) h
        simp only [List.length_drop] at hrec
        omega

theorem nextFrameF_eq (c : BlockCodec) (f : Nat) (seen : Bool) (input : List Nat)
    (h : input.length < f) : nextFrameF c f seen input = nextFrame c seen input :=
  nextFrameF_congr c f (input.length + 1) seen input h (Nat.lt_succ_self _)

theorem nextFrame_ok_len (c : BlockCodec) (seen : Bool) (input : List Nat)
    (s' : Bool) (out rem : List Nat) (h : nextFrame c seen input = (s', .ok (out, rem))) :
    rem.length < input.length :=
  nextFrameF_ok_len c (input.length + 1) seen input s' out rem (Nat.lt_succ_self _) h

theorem decodeLoopF_congr (c : BlockCodec) :
    ∀ f g seen input acc, input.length < f → input.length < g →
      decodeLoopF c f seen input acc = decodeLoopF c g seen input acc := by
  intro f
  induction f using Nat.strong_induction_on with
  | _ f ih =>
    intro g seen input acc hf hg
    match f, g with
    | f' + 1, g' + 1 =>
      simp only [decodeLoopF]
      cases h : nextFrame c seen input with
      | mk s' res =>
        cases res with
        | error e => cases e <;> rfl
        | ok pr =>
          obtain ⟨out, rem⟩ := pr
          have hlt := nextFrame_ok_len c seen input s' out rem h
          exact ih f' (Nat.lt_succ_self f') g' s' rem (acc ++ out) (by omega) (by omega)

/-- One-step unfolding of decodeLoop in terms of nextFrame. -/
theorem decodeLoop_step (c : BlockCodec) (seen : Bool) (input acc : List Nat) :
    decodeLoop c seen input acc =
      match nextFrame c seen input with
      | (_, .error .eof) => .ok acc
      | (_, .error e) => .error e
      | (seen', .ok (out, rem)) => decodeLoop c seen' rem (acc ++ out) := by
  unfold decodeLoop
  rw [decodeLoopF]
  cases h : nextFrame c seen input with
  | mk s' res =>
    cases res with
    | error e => cases e <;> rfl
    | ok pr =>
      obtain ⟨out, rem⟩ := pr
      have hlt := nextFrame_ok_len c seen input s' out rem h
      exact decodeLoopF_congr c input.length (rem.length + 1) s' rem (acc ++ out)
        (by omega) (Nat.lt_succ_self _)

/-! ### Bounds for crc32C -/

theorem crcStep_lt {x : Nat} (h : x < 2 ^ 32) : crcStep x < 2 ^ 32 := by
  unfold crcStep
  split_ifs
  · exact Nat.xor_lt_two_pow (by rw [shiftRight_div]; omega) (by norm_num)
  · rw [shiftRight_div]
    omega

theorem crcByte_lt {x : Nat} (b : Nat) (h : x < 2 ^ 32) : crcByte x b < 2 ^ 32 := by
  unfold crcByte
  have h0 : x ^^^ b % 256 < 2 ^ 32 :=
    Nat.xor_lt_two_pow h (by have := @Nat.mod_lt b 256 (by norm_num); omega)
  exact crcStep_lt (crcStep_lt (crcStep_lt (crcStep_lt
    (crcStep_lt (crcStep_lt (crcStep_lt (crcStep_lt h0)))))))

theorem crc32Aux_lt (d : List Nat) : ∀ x : Nat, x < 2 ^ 32 → crc32Aux x d < 2 ^ 32 := by
  induction d with
  | nil => intro x h; exact h
  | cons b bs ih => intro x h; exact ih _ (crcByte_lt b h)

theorem crc32C_lt (d : List Nat) : crc32C d < 2 ^ 32 := by
  unfold crc32C
  exact Nat.xor_lt_two_pow (crc32Aux_lt d _ (by norm_num)) (by norm_num)

/-! ### One-step evaluation of nextFrame -/

theorem nextFrame_nil (c : BlockCodec) (s : Bool) : nextFrame c s [] = (s, .error .eof) := rfl

theorem nextFrame_short (c : BlockCodec) (s : Bool) (input : List Nat)
    (h0 : input ≠ []) (h4 : input.length < 4) :
    nextFrame c s input = (s, .error .unexpectedEOF) := by
  unfold nextFrame
  rw [nextFrameF]
  rw [if_neg h0, if_pos h4]

/-- Evaluation of nextFrame on an input holding a full 4-byte header. -/
theorem nextFrame_cons4 (c : BlockCodec) (s : Bool) (t a b d : Nat) (rest : List Nat) :
    nextFrame c s (t :: a :: b :: d :: rest) =
      if t = blockStreamIdentifier then
        if t :: a :: b :: d :: [] ≠ streamID.take 4 then (s, .error .badStreamIDLength)
        else if rest.length < 6 then (s, .error .unexpectedEOF)
        else if rest.take 6 ≠ streamID.drop 4 then (s, .error .badStreamIDBlock)
        else nextFrame c true (rest.drop 6)
      else if s = false then (s, .error .missingStreamID)
      else if t = blockCompressed ∨ t = blockUncompressed then
        (s, decodeBlockFrame c t (decodeLength a b d) rest)
      else if t = blockPadding ∨ (0x80 ≤ t ∧ t ≤ 0xfd) then
        if rest.length < decodeLength a b d then (s, .error .unexpectedEOF)
        else nextFrame c s (rest.drop (decodeLength a b d))
      else
        if rest.length < decodeLength a b d then (s, .error .unexpectedEOF)
        else (s, .error (.unskippableChunk t))
    := by
  conv_lhs => unfold nextFrame; rw [nextFrameF]
  rw [if_neg (by simp), if_neg (by simp)]
  simp only [List.getD_cons_zero, List.getD_cons_succ, List.take_succ_cons, List.take_zero,
    List.drop_succ_cons, List.drop_zero, List.length_cons]
  rw [nextFrameF_eq c _ true (rest.drop 6) (by simp only [List.length_drop]; omega),
    nextFrameF_eq c _ s (rest.drop (decodeLength a b d)) (by simp only [List.length_drop]; omega)]

theorem nextFrame_streamID (c : BlockCodec) (s : Bool) (r : List Nat) :
    nextFrame c s (streamID ++ r) = nextFrame c true r := by
  rw [show streamID ++ r = 0xff :: 0x06 :: 0x00 :: 0x00 ::
    ([0x73, 0x4e, 0x61, 0x50, 0x70, 0x59] ++ r) from by simp [streamID]]
  rw [nextFrame_cons4]
  norm_num [blockStreamIdentifier, streamID]

/-! ### Evaluation of decodeBlockFrame on well-formed data chunks -/

theorem maxEncodedBlockSize_eq : maxEncodedBlockSize = 76490 := by norm_num [maxEncodedBlockSize]

theorem storedChecksum_encLE32 (n : Nat) (h : n < 2 ^ 32) :
    storedChecksum (encLE32 n) = n := by
  show decodeLE32 (n % 256) ((n >>> 8) % 256) ((n >>> 16) % 256) ((n >>> 24) % 256) = n
  exact decodeLE32_encLE32 n h

set_option maxRecDepth 4000 in
theorem decodeBlockFrame_wellformed (c : BlockCodec) (tag declen : Nat)
    (body p rest : List Nat)
    (hlen : body.length ≤ maxEncodedBlockSize)
    (hdl : (if tag = blockCompressed then c.decodedLen body else some body.length)
      = some declen)
    (hdlle : declen ≤ MaxBlockSize)
    (hbd : (if tag = blockCompressed then c.decode body else some body) = some p) :
    decodeBlockFrame c tag (body.length + 4)
      (encLE32 (maskChecksum (crc32C p)) ++ body ++ rest) = .ok (p, rest) := by
  have hlenc : (encLE32 (maskChecksum (crc32C p))).length = 4 := by simp [encLE32]
  have hlen4 : (encLE32 (maskChecksum (crc32C p)) ++ body).length = body.length + 4 := by
    simp only [encLE32, List.length_append, List.length_cons, List.length_nil]
    omega
  unfold decodeBlockFrame
  rw [if_neg (show ¬(body.length + 4 > maxEncodedBlockSize + 4) by omega)]
  rw [if_neg (show
    ¬((encLE32 (maskChecksum (crc32C p)) ++ body ++ rest).length < body.length + 4) by
      simp only [encLE32, List.length_append, List.length_cons, List.length_nil]
      omega)]
  simp only [List.take_left' hlen4, List.drop_left' hlen4,
    List.take_left' hlenc, List.drop_left' hlenc]
  rw [if_neg (show ¬(body.length + 4 < 4) by omega), hdl]
  dsimp only
  rw [if_neg (show ¬(declen > MaxBlockSize) by omega), hbd]
  dsimp only
  rw [storedChecksum_encLE32 _ (maskChecksum_lt _), unmask_mask _ (crc32C_lt p)]
  simp

/-! ### Decoding one emitted frame -/

theorem nextFrame_writeFrame (c : BlockCodec) (p rest : List Nat)
    (h : p.length ≤ maxBlockSize)
    (hdec : c.decode (c.encode p) = some p)
    (hdlen : c.decodedLen (c.encode p) = some p.length) :
    nextFrame c true (writeFrame c p ++ rest) = (true, .ok (p, rest)) := by
  have hmax : maxBlockSize = 65536 := rfl
  have hp : p.length ≤ 65536 := hmax ▸ h
  unfold writeFrame
  by_cases hc : (c.encode p).length ≥ p.length
  · rw [if_pos hc]
    simp only [encLE24, List.cons_append, List.nil_append]
    rw [nextFrame_cons4]
    rw [if_neg (by decide), if_neg (by simp), if_pos (by simp [blockUncompressed, blockCompressed])]
    rw [decodeLength_encLE24 _ (by omega)]
    rw [decodeBlockFrame_wellformed c blockUncompressed p.length p p rest
      (by rw [maxEncodedBlockSize_eq]; omega)
      (by norm_num [blockUncompressed, blockCompressed])
      (show p.length ≤ MaxBlockSize from hp)
      (by norm_num [blockUncompressed, blockCompressed])]
  · rw [if_neg hc]
    simp only [encLE24, List.cons_append, List.nil_append]
    rw [nextFrame_cons4]
    rw [if_neg (by decide), if_neg (by simp), if_pos (by simp [blockUncompressed, blockCompressed])]
    rw [decodeLength_encLE24 _ (by omega)]
    rw [decodeBlockFrame_wellformed c blockCompressed p.length (c.encode p) p rest
      (by rw [maxEncodedBlockSize_eq]; omega)
      (by rw [if_pos rfl]; exact hdlen)
      (show p.length ≤ MaxBlockSize from hp)
      (by rw [if_pos rfl]; exact hdec)]

/-! ### Loop lemmas -/

theorem decodeLoop_nil (c : BlockCodec) (s : Bool) (acc : List Nat) :
    decodeLoop c s [] acc = .ok acc := rfl

theorem decodeLoop_congr_nextFrame {c : BlockCodec} {s s' : Bool} {input input' : List Nat}
    (h : nextFrame c s input = nextFrame c s' input') (acc : List Nat) :
    decodeLoop c s input acc = decodeLoop c s' input' acc := by
  rw [decodeLoop_step, decodeLoop_step, h]

theorem decodeLoop_writeFrame (c : BlockCodec) (p rest acc : List Nat)
    (h : p.length ≤ maxBlockSize)
    (hdec : c.decode (c.encode p) = some p)
    (hdlen : c.decodedLen (c.encode p) = some p.length) :
    decodeLoop c true (writeFrame c p ++ rest) acc = decodeLoop c true rest (acc ++ p) := by
  rw [decodeLoop_step, nextFrame_writeFrame c p rest h hdec hdlen]

theorem decodeLoop_blocks (c : BlockCodec)
    (hdec : ∀ p, c.decode (c.encode p) = some p)
    (hdlen : ∀ p, c.decodedLen (c.encode p) = some p.length) :
    ∀ bs rest acc, (∀ b ∈ bs, b.length ≤ maxBlockSize) →
      decodeLoop c true (encodeBlocks c bs ++ rest) acc
        = decodeLoop c true rest (acc ++ bs.flatten) := by
  intro bs
  induction bs with
  | nil => intro rest acc _; simp [encodeBlocks]
  | cons b bs ih =>
    intro rest acc hb
    have hb1 : b.length ≤ maxBlockSize := hb b (by simp)
    have hb2 : ∀ x ∈ bs, x.length ≤ maxBlockSize := fun x hx => hb x (by simp [hx])
    simp only [encodeBlocks, List.map_cons, List.flatten_cons, List.append_assoc]
    rw [decodeLoop_writeFrame c b _ acc hb1 (hdec b) (hdlen b)]
    have := ih rest (acc ++ b) hb2
    simp only [encodeBlocks] at this
    rw [this, List.append_assoc]

/-! ### Chunking lemmas -/

theorem chunksF_congr : ∀ f g bs, bs.length < f → bs.length < g → chunksF f bs = chunksF g bs := by
  intro f
  induction f using Nat.strong_induction_on with
  | _ f ih =>
    intro g bs hf hg
    match f, g with
    | f' + 1, g' + 1 =>
      simp only [chunksF]
      by_cases hbs : bs = []
      · simp [hbs]
      · rw [if_neg hbs, if_neg hbs]
        have hpos : 0 < bs.length := List.length_pos.mpr hbs
        have : (bs.drop maxBlockSize).length < f' ∧ (bs.drop maxBlockSize).length < g' := by
          simp only [List.length_drop]
          have : maxBlockSize = 65536 := rfl
          omega
        rw [ih f' (Nat.lt_succ_self f') g' _ this.1 this.2]

theorem chunks_step (bs : List Nat) :
    chunks bs = if bs = [] then []
      else bs.take maxBlockSize :: chunks (bs.drop maxBlockSize) := by
  unfold chunks
  rw [chunksF]
  by_cases hbs : bs = []
  · simp [hbs]
  · rw [if_neg hbs, if_neg hbs]
    have hpos : 0 < bs.length := List.length_pos.mpr hbs
    rw [chunksF_congr bs.length ((bs.drop maxBlockSize).length + 1) _
      (by simp only [List.length_drop]; have : maxBlockSize = 65536 := rfl; omega)
      (Nat.lt_succ_self _)]

theorem chunks_flatten_aux : ∀ (n : Nat) (bs : List Nat), bs.length ≤ n →
    (chunks bs).flatten = bs := by
  intro n
  induction n with
  | zero =>
    intro bs h
    have : bs = [] := List.length_eq_zero.mp (by omega)
    simp [this, chunks, chunksF]
  | succ n ih =>
    intro bs h
    rw [chunks_step]
    by_cases hbs : bs = []
    · simp [hbs]
    · rw [if_neg hbs]
      have hpos : 0 < bs.length := List.length_pos.mpr hbs
      rw [List.flatten_cons]
      rw [ih (bs.drop maxBlockSize)
        (by simp only [List.length_drop]; have : maxBlockSize = 65536 := rfl; omega)]
      exact List.take_append_drop _ _

theorem chunks_flatten (bs : List Nat) : (chunks bs).flatten = bs :=
  chunks_flatten_aux bs.length bs le_rfl

theorem chunks_mem_le : ∀ (n : Nat) (bs : List Nat), bs.length ≤ n →
    ∀ b ∈ chunks bs, b.length ≤ maxBlockSize := by
  intro n
  induction n with
  | zero =>
    intro bs h b hb
    have : bs = [] := List.length_eq_zero.mp (by omega)
    rw [this] at hb
    simp [chunks, chunksF] at hb
  | succ n ih =>
    intro bs h b hb
    rw [chunks_step] at hb
    by_cases hbs : bs = []
    · simp [hbs] at hb
    · rw [if_neg hbs] at hb
      have hpos : 0 < bs.length := List.length_pos.mpr hbs
      rcases List.mem_cons.mp hb with h1 | h1
      · rw [h1]
        simp [List.length_take]
      · exact ih (bs.drop maxBlockSize)
          (by simp only [List.length_drop]; have : maxBlockSize = 65536 := rfl; omega) b h1

/-! ### The full round trip -/

theorem decodeStream_encodeStream (c : BlockCodec)
    (hdec : ∀ p, c.decode (c.encode p) = some p)
    (hdlen : ∀ p, c.decodedLen (c.encode p) = some p.length) (B : List Nat) :
    decodeStream c (encodeStream c B) = .ok B := by
  unfold decodeStream encodeStream
  by_cases hB : B = []
  · simp [hB]
    exact decodeLoop_nil c false []
  · rw [if_neg hB]
    rw [decodeLoop_congr_nextFrame (nextFrame_streamID c false (encodeBlocks c (chunks B))) []]
    rw [← List.append_nil (encodeBlocks c (chunks B))]
    rw [decodeLoop_blocks c hdec hdlen (chunks B) [] []
      (chunks_mem_le B.length B le_rfl)]
    rw [decodeLoop_nil, List.nil_append, chunks_flatten]

/-! ### Support lemmas for the claims about validation and truncation -/

theorem storedChecksum_encLE32_append (n : Nat) (l : List Nat) (h : n < 2 ^ 32) :
    storedChecksum (encLE32 n ++ l) = n := by
  unfold storedChecksum
  rw [List.getD_append _ _ _ _ (by simp [encLE32]), List.getD_append _ _ _ _ (by simp [encLE32]),
    List.getD_append _ _ _ _ (by simp [encLE32]), List.getD_append _ _ _ _ (by simp [encLE32])]
  exact storedChecksum_encLE32 n h

theorem decodeBlockFrame_oversize (c : BlockCodec) (tag len : Nat) (input : List Nat)
    (h : len > maxEncodedBlockSize + 4) :
    decodeBlockFrame c tag len input = .error .encodedTooLarge := by
  unfold decodeBlockFrame
  rw [if_pos h]

theorem decodeBlockFrame_truncated (c : BlockCodec) (tag len : Nat) (input : List Nat)
    (h1 : ¬(len > maxEncodedBlockSize + 4)) (h2 : input.length < len) :
    decodeBlockFrame c tag len input = .error .unexpectedEOF := by
  unfold decodeBlockFrame
  rw [if_neg h1, if_pos h2]

/-- Inversion for a successful decodeBlockFrame: the stored checksum was
unmasked and found equal to the CRC32 of the bytes produced, the declared
length was within bounds, and (when snappy.DecodedLen agrees with
snappy.Decode, the codec contract) the decoded block is at most
MaxBlockSize bytes. -/
theorem decodeBlockFrame_ok_inv (c : BlockCodec)
    (hc : ∀ b o, c.decode b = some o → c.decodedLen b = some o.length)
    (tag len : Nat) (input out rem : List Nat)
    (h : decodeBlockFrame c tag len input = .ok (out, rem)) :
    unmaskChecksum (storedChecksum ((input.take len).take 4)) = crc32C out
      ∧ len ≤ maxEncodedBlockSize + 4 ∧ out.length ≤ MaxBlockSize := by
  by_cases htag : tag = blockCompressed
  · subst htag
    simp only [decodeBlockFrame, reduceIte] at h
    split_ifs at h with h1 h2 h3
    rcases hdl : c.decodedLen ((input.take len).drop 4) with _ | declen <;> rw [hdl] at h
    · exact Except.noConfusion h
    try dsimp only at h
    split_ifs at h with h4
    rcases hbd : c.decode ((input.take len).drop 4) with _ | bd <;> rw [hbd] at h
    · exact Except.noConfusion h
    try dsimp only at h
    split_ifs at h with h5
    injection h with h
    injection h with hout hrem
    subst hout
    refine ⟨not_not.mp h5, by omega, ?_⟩
    have hl := hc _ _ hbd
    rw [hl] at hdl
    injection hdl with hdl
    omega
  · simp only [decodeBlockFrame, if_neg htag] at h
    split_ifs at h with h1 h2 h3 h4 h5
    injection h with h
    injection h with hout hrem
    subst hout
    exact ⟨not_not.mp h5, by omega, by omega⟩

/-- A compressed chunk whose body snappy fails to decode yields a decode
error and no output (given the earlier validations pass). -/
theorem decodeBlockFrame_decodeErr (c : BlockCodec) (len : Nat) (input : List Nat)
    (h1 : ¬(len > maxEncodedBlockSize + 4)) (h2 : ¬(input.length < len)) (h3 : ¬(len < 4))
    (declen : Nat)
    (hdl : c.decodedLen ((input.take len).drop 4) = some declen)
    (h4 : ¬(declen > MaxBlockSize))
    (hbd : c.decode ((input.take len).drop 4) = none) :
    decodeBlockFrame c blockCompressed len input = .error .snappyDecodeErr := by
  simp only [decodeBlockFrame, reduceIte]
  rw [if_neg h1, if_neg h2, if_neg h3, hdl]
  dsimp only
  rw [if_neg h4, hbd]

/-- A chunk whose stored checksum does not unmask to the CRC32 of its decoded
bytes is rejected with a checksum mismatch and no output. -/
theorem decodeBlockFrame_checksumErr (c : BlockCodec) (tag len : Nat)
    (input blockdata : List Nat)
    (h1 : ¬(len > maxEncodedBlockSize + 4)) (h2 : ¬(input.length < len)) (h3 : ¬(len < 4))
    (declen : Nat)
    (hdl : (if tag = blockCompressed then c.decodedLen ((input.take len).drop 4)
      else some ((input.take len).drop 4).length) = some declen)
    (h4 : ¬(declen > MaxBlockSize))
    (hbd : (if tag = blockCompressed then c.decode ((input.take len).drop 4)
      else some ((input.take len).drop 4)) = some blockdata)
    (h5 : unmaskChecksum (storedChecksum ((input.take len).take 4)) ≠ crc32C blockdata) :
    decodeBlockFrame c tag len input = .error .checksumMismatch := by
  simp only [decodeBlockFrame]
  rw [if_neg h1, if_neg h2, if_neg h3, hdl]
  dsimp only
  rw [if_neg h4, hbd]
  dsimp only
  rw [if_pos h5]

/-! ### Reader.Read behaviour -/

theorem readerRead_buffered (c : BlockCodec) (s : ReaderState) (n : Nat)
    (he : s.err = none) (hb : ¬(s.buf.length < n)) (hne : s.buf ≠ []) :
    readerRead c s n = ((s.buf.take n, none), { s with err := none, buf := s.buf.drop n }) := by
  unfold readerRead
  rw [he]
  dsimp only
  rw [if_neg hb]
  unfold readerServe
  rw [if_neg (by simp [hne])]

theorem readerRead_one_chunk (c : BlockCodec) (s : ReaderState) (n : Nat)
    (seen' : Bool) (out rem : List Nat)
    (he : s.err = none) (hb : s.buf.length < n)
    (hnf : nextFrame c s.seen s.input = (seen', .ok (out, rem)))
    (hne : s.buf ++ out ≠ []) :
    readerRead c s n = (((s.buf ++ out).take n, none),
      { err := none, seen := seen', buf := (s.buf ++ out).drop n, input := rem }) := by
  unfold readerRead
  rw [he]
  dsimp only
  rw [if_pos hb, hnf]
  dsimp only
  unfold readerServe
  rw [if_neg (by simp [hne])]

theorem readerRead_eof_buffered (c : BlockCodec) (s : ReaderState) (n : Nat)
    (he : s.err = none) (hin : s.input = []) (hne : s.buf ≠ []) :
    (readerRead c s n).1 = (s.buf.take n, none) := by
  unfold readerRead
  rw [he]
  dsimp only
  by_cases hb : s.buf.length < n
  · rw [if_pos hb, hin, nextFrame_nil]
    dsimp only
    unfold readerServe
    rw [if_neg (by simp [hne])]
  · rw [if_neg hb]
    unfold readerServe
    rw [if_neg (by simp [hne])]

/-! ### Writer.Write return contract -/

theorem writerWriteOne_ok_count (c : BlockCodec) (cap : Nat) (st st' : WriterState)
    (p : List Nat) (n : Nat)
    (h : writerWriteOne c cap st p = ((n, none), st')) : n = p.length := by
  simp only [writerWriteOne] at h
  repeat' split at h
  all_goals simp only [Prod.mk.injEq] at h
  all_goals first
    | exact h.1.1.symm
    | exact absurd h.1.2 (by simp)

theorem writerWriteLoop_spec (c : BlockCodec) (cap : Nat) :
    ∀ (pieces : List (List Nat)) (st : WriterState) (total : Nat),
      ((writerWriteLoop c cap st pieces total).1.2 = none →
        (writerWriteLoop c cap st pieces total).1.1 = total + (pieces.map List.length).sum)
      ∧ ((writerWriteLoop c cap st pieces total).1.2 ≠ none →
        (writerWriteLoop c cap st pieces total).1.1 = 0) := by
  intro pieces
  induction pieces with
  | nil => intro st total; simp [writerWriteLoop]
  | cons p rest ih =>
    intro st total
    simp only [writerWriteLoop]
    cases hw : writerWriteOne c cap st p with
    | mk r st' =>
      obtain ⟨n, e⟩ := r
      cases e with
      | none =>
        have hn : n = p.length := writerWriteOne_ok_count c cap st st' p n hw
        subst hn
        constructor
        · intro h
          rw [(ih st' (total + p.length)).1 h]
          simp
          omega
        · exact (ih st' (total + p.length)).2
      | some e => simp

theorem chunks_length_sum (p : List Nat) : ((chunks p).map List.length).sum = p.length := by
  have := chunks_flatten p
  calc ((chunks p).map List.length).sum = (chunks p).flatten.length := (List.length_flatten _).symm
    _ = p.length := by rw [this]

/-! ### Stream concatenation -/

theorem decodeStream_concat (c : BlockCodec)
    (hdec : ∀ p, c.decode (c.encode p) = some p)
    (hdlen : ∀ p, c.decodedLen (c.encode p) = some p.length) (A B : List Nat) :
    decodeStream c (encodeStream c A ++ encodeStream c B) = .ok (A ++ B) := by
  by_cases hA : A = []
  · rw [hA]
    show decodeStream c (encodeStream c [] ++ encodeStream c B) = .ok ([] ++ B)
    rw [show encodeStream c [] = [] from rfl, List.nil_append, List.nil_append]
    exact decodeStream_encodeStream c hdec hdlen B
  · by_cases hB : B = []
    · rw [hB, show encodeStream c [] = [] from rfl, List.append_nil, List.append_nil]
      exact decodeStream_encodeStream c hdec hdlen A
    · unfold decodeStream encodeStream
      rw [if_neg hA, if_neg hB]
      rw [List.append_assoc]
      unfold decodeLoop at *
      rw [show decodeLoopF c ((streamID ++ (encodeBlocks c (chunks A) ++
          (streamID ++ encodeBlocks c (chunks B)))).length + 1) false _ [] =
        decodeLoop c false (streamID ++ (encodeBlocks c (chunks A) ++
          (streamID ++ encodeBlocks c (chunks B)))) [] from rfl]
      rw [decodeLoop_congr_nextFrame (nextFrame_streamID c false _) []]
      rw [decodeLoop_blocks c hdec hdlen (chunks A) _ [] (chunks_mem_le A.length A le_rfl)]
      rw [decodeLoop_congr_nextFrame (nextFrame_streamID c true _) _]
      rw [← List.append_nil (encodeBlocks c (chunks B))]
      rw [decodeLoop_blocks c hdec hdlen (chunks B) [] _ (chunks_mem_le B.length B le_rfl)]
      rw [decodeLoop_nil]
      rw [List.nil_append, chunks_flatten, chunks_flatten]

/-! ### Claim C1 -/

/-- C1: for every byte sequence B, writing B through the Writer (with a final
Flush/Close) and reading the produced stream back through the Reader yields
exactly B: decode(encode(B)) = B.  The snappy block codec is quantified,
subject to the external-collaborator contract of the spec (decode inverts
encode and DecodedLen reports the decoded length). -/
theorem c1_roundtrip (c : BlockCodec)
    (hdec : ∀ p, c.decode (c.encode p) = some p)
    (hdlen : ∀ p, c.decodedLen (c.encode p) = some p.length)
    (B : List Nat) (_hB : ∀ b ∈ B, b < 256) :
    decodeStream c (encodeStream c B) = .ok B :=
  decodeStream_encodeStream c hdec hdlen B

/-- Witness for C1 at the concrete sequence [1, 2, 3] with the toy codec. -/
theorem c1_roundtrip_witness :
    decodeStream toyCodec (encodeStream toyCodec [1, 2, 3]) = .ok [1, 2, 3] :=
  c1_roundtrip toyCodec toy_decode_encode toy_decodedLen_encode [1, 2, 3] (by decide)

/-! ### Claim C2 -/

/-- C2: a data chunk's decoded bytes are produced only after the stored
checksum has been unmasked and found equal to the CRC32 of the decoded
bytes, and after the declared-length and decoded-length bounds have been
checked; a chunk failing any validation step (oversize declared length,
snappy decode failure, checksum mismatch) yields an error and no output
bytes.  The hypothesis is the codec contract that snappy.DecodedLen reports
the length snappy.Decode produces. -/
theorem c2_checksum_gate (c : BlockCodec)
    (hc : ∀ b o, c.decode b = some o → c.decodedLen b = some o.length) :
    (∀ tag len input out rem, decodeBlockFrame c tag len input = .ok (out, rem) →
      unmaskChecksum (storedChecksum ((input.take len).take 4)) = crc32C out
        ∧ len ≤ maxEncodedBlockSize + 4 ∧ out.length ≤ MaxBlockSize)
    ∧ (∀ tag len input, len > maxEncodedBlockSize + 4 →
        decodeBlockFrame c tag len input = .error .encodedTooLarge)
    ∧ (∀ len input declen, ¬(len > maxEncodedBlockSize + 4) → ¬(input.length < len) →
        ¬(len < 4) → c.decodedLen ((input.take len).drop 4) = some declen →
        ¬(declen > MaxBlockSize) → c.decode ((input.take len).drop 4) = none →
        decodeBlockFrame c blockCompressed len input = .error .snappyDecodeErr)
    ∧ (∀ tag len input blockdata declen, ¬(len > maxEncodedBlockSize + 4) →
        ¬(input.length < len) → ¬(len < 4) →
        (if tag = blockCompressed then c.decodedLen ((input.take len).drop 4)
          else some ((input.take len).drop 4).length) = some declen →
        ¬(declen > MaxBlockSize) →
        (if tag = blockCompressed then c.decode ((input.take len).drop 4)
          else some ((input.take len).drop 4)) = some blockdata →
        unmaskChecksum (storedChecksum ((input.take len).take 4)) ≠ crc32C blockdata →
        decodeBlockFrame c tag len input = .error .checksumMismatch) :=
  ⟨fun tag len input out rem h => decodeBlockFrame_ok_inv c hc tag len input out rem h,
   fun tag len input h => decodeBlockFrame_oversize c tag len input h,
   fun len input declen h1 h2 h3 hdl h4 hbd =>
     decodeBlockFrame_decodeErr c len input h1 h2 h3 declen hdl h4 hbd,
   fun tag len input blockdata declen h1 h2 h3 hdl h4 hbd h5 =>
     decodeBlockFrame_checksumErr c tag len input blockdata h1 h2 h3 declen hdl h4 hbd h5⟩

/-- Witness for C2 at a concrete well-formed uncompressed chunk. -/
theorem c2_checksum_gate_witness :
    unmaskChecksum (storedChecksum
        (((encLE32 (maskChecksum (crc32C [5])) ++ [5]).take 5).take 4)) = crc32C [5]
      ∧ (5 : Nat) ≤ maxEncodedBlockSize + 4 ∧ ([5] : List Nat).length ≤ MaxBlockSize :=
  (c2_checksum_gate toyCodec toy_coherent).1 blockUncompressed 5
    (encLE32 (maskChecksum (crc32C [5])) ++ [5]) [5] [] (by decide)

/-! ### Claim C3 -/

/-- C3: end of input exactly at a chunk boundary is the clean end-of-stream
signal io.EOF (and any bytes already buffered are still served first), while
end of input inside a 4-byte header or inside a declared-length payload
(marker payload, data-chunk payload, or the payload of a padding, reserved
skippable or reserved unskippable chunk discarded via noeof64) is the
distinct truncation error io.ErrUnexpectedEOF. -/
theorem c3_eof_boundaries (c : BlockCodec) :
    (∀ s, nextFrame c s [] = (s, .error .eof))
    ∧ (∀ s input, input ≠ [] → input.length < 4 →
        nextFrame c s input = (s, .error .unexpectedEOF))
    ∧ (∀ s r, r.length < 6 → nextFrame c s (0xff :: 0x06 :: 0x00 :: 0x00 :: r)
        = (s, .error .unexpectedEOF))
    ∧ (∀ tag a b d payload, (tag = blockCompressed ∨ tag = blockUncompressed) →
        decodeLength a b d ≤ maxEncodedBlockSize + 4 →
        payload.length < decodeLength a b d →
        nextFrame c true (tag :: a :: b :: d :: payload) = (true, .error .unexpectedEOF))
    ∧ (∀ tag a b d payload, tag ≠ blockStreamIdentifier → tag ≠ blockCompressed →
        tag ≠ blockUncompressed →
        payload.length < decodeLength a b d →
        nextFrame c true (tag :: a :: b :: d :: payload) = (true, .error .unexpectedEOF))
    ∧ (∀ s n, s.err = none → s.input = [] → s.buf ≠ [] →
        (readerRead c s n).1 = (s.buf.take n, none)) := by
  refine ⟨fun s => nextFrame_nil c s, fun s input => nextFrame_short c s input, ?_, ?_, ?_, ?_⟩
  · intro s r h6
    rw [nextFrame_cons4]
    rw [if_pos (by decide), if_neg (by decide), if_pos h6]
  · intro tag a b d payload htag hle hlt
    rcases htag with h | h <;> subst h
    · rw [nextFrame_cons4]
      rw [if_neg (by decide), if_neg (by simp),
        if_pos (Or.inl rfl)]
      rw [decodeBlockFrame_truncated c _ _ _ (by omega) hlt]
    · rw [nextFrame_cons4]
      rw [if_neg (by decide), if_neg (by simp),
        if_pos (Or.inr rfl)]
      rw [decodeBlockFrame_truncated c _ _ _ (by omega) hlt]
  · intro tag a b d payload hsid hcmp huncmp hlt
    rw [nextFrame_cons4]
    rw [if_neg (by simp [hsid]), if_neg (by simp),
      if_neg (by simp [hcmp, huncmp])]
    by_cases hp : tag = blockPadding ∨ (0x80 ≤ tag ∧ tag ≤ 0xfd)
    · rw [if_pos hp, if_pos hlt]
    · rw [if_neg hp, if_pos hlt]
  · intro s n he hin hne
    exact readerRead_eof_buffered c s n he hin hne

/-- Witness for C3 at concrete truncated and boundary inputs, including a
truncated padding chunk and a truncated reserved unskippable chunk. -/
theorem c3_eof_boundaries_witness :
    nextFrame toyCodec false [1, 2] = (false, .error .unexpectedEOF)
    ∧ nextFrame toyCodec true (0xff :: 0x06 :: 0x00 :: 0x00 :: [0x73])
      = (true, .error .unexpectedEOF)
    ∧ nextFrame toyCodec true (0x01 :: 0x09 :: 0x00 :: 0x00 :: [0x00])
      = (true, .error .unexpectedEOF)
    ∧ nextFrame toyCodec true (0xfe :: 0x05 :: 0x00 :: 0x00 :: [0x01, 0x02])
      = (true, .error .unexpectedEOF)
    ∧ nextFrame toyCodec true (0x02 :: 0x03 :: 0x00 :: 0x00 :: [0x07])
      = (true, .error .unexpectedEOF)
    ∧ (readerRead toyCodec { err := none, seen := true, buf := [4], input := [] } 3).1
      = ([4], none) :=
  ⟨(c3_eof_boundaries toyCodec).2.1 false [1, 2] (by decide) (by decide),
   (c3_eof_boundaries toyCodec).2.2.1 true [0x73] (by decide),
   (c3_eof_boundaries toyCodec).2.2.2.1 0x01 0x09 0x00 0x00 [0x00] (Or.inr (by decide))
     (by decide) (by decide),
   (c3_eof_boundaries toyCodec).2.2.2.2.1 0xfe 0x05 0x00 0x00 [0x01, 0x02] (by decide)
     (by decide) (by decide) (by decide),
   (c3_eof_boundaries toyCodec).2.2.2.2.1 0x02 0x03 0x00 0x00 [0x07] (by decide)
     (by decide) (by decide) (by decide),
   (c3_eof_boundaries toyCodec).2.2.2.2.2 _ 3 rfl rfl (by decide)⟩

/-! ### Claim C4 -/

/-- C4: for every 32-bit value, unmaskChecksum inverts maskChecksum, where
maskChecksum is ((c >> 15) | (c << 17)) + 0xa282ead8 in wrapping 32-bit
arithmetic. -/
theorem c4_mask_inverse (cv : Nat) (h : cv < 2 ^ 32) :
    unmaskChecksum (maskChecksum cv) = cv :=
  unmask_mask cv h

/-- Witness for C4 at the concrete checksum value 0xdeadbeef. -/
theorem c4_mask_inverse_witness :
    (0xdeadbeef : Nat) < 2 ^ 32 ∧ unmaskChecksum (maskChecksum 0xdeadbeef) = 0xdeadbeef :=
  ⟨by decide, c4_mask_inverse 0xdeadbeef (by decide)⟩

/-! ### Claim C5 -/

/-- C5 counterexample: the claim says a successful Read on a stream holding
at least N decoded bytes returns exactly N bytes.  On a stream whose two
decoded bytes are split across two data chunks, a Read of 2 bytes from a
fresh Reader succeeds but returns only 1 byte: Reader.Read calls nextFrame
at most once per call, decoding a single data chunk, instead of looping
until the buffer holds N bytes. -/
theorem c5_counterexample :
    decodeStream toyCodec exChunkStream = .ok [5, 7]
    ∧ (readerRead toyCodec (initReader exChunkStream) 2).1 = ([5], none)
    ∧ ¬((readerRead toyCodec (initReader exChunkStream) 2).1.1.length = 2) := by
  refine ⟨by decide, by decide, by decide⟩

/-- C5 (amended): when the pending buffer holds at least N bytes Read serves
the first N of them; otherwise Read decodes at most ONE data chunk into the
buffer and serves min(N, buffered) bytes of buffer-plus-chunk — which can be
fewer than N even when the stream still holds N decoded bytes. -/
theorem c5_read_one_chunk (c : BlockCodec) (s : ReaderState) (n : Nat) :
    (s.err = none → ¬(s.buf.length < n) → s.buf ≠ [] →
      readerRead c s n = ((s.buf.take n, none), { s with err := none, buf := s.buf.drop n }))
    ∧ (∀ seen' out rem, s.err = none → s.buf.length < n →
        nextFrame c s.seen s.input = (seen', .ok (out, rem)) → s.buf ++ out ≠ [] →
        readerRead c s n = (((s.buf ++ out).take n, none),
          { err := none, seen := seen', buf := (s.buf ++ out).drop n, input := rem })) :=
  ⟨fun he hb hne => readerRead_buffered c s n he hb hne,
   fun seen' out rem he hb hnf hne => readerRead_one_chunk c s n seen' out rem he hb hnf hne⟩

/-- Witness for C5 (amended) at the two-chunk stream: one chunk is decoded
and one byte served. -/
theorem c5_read_one_chunk_witness :
    readerRead toyCodec (initReader exChunkStream) 2
      = ((([] ++ [5]).take 2, none),
        { err := none, seen := true, buf := ([] ++ [5]).drop 2,
          input := writeFrame toyCodec [7] }) :=
  (c5_read_one_chunk toyCodec (initReader exChunkStream) 2).2 true [5]
    (writeFrame toyCodec [7]) rfl (by decide) (by decide) (by decide)

/-! ### Claim C6 -/

/-- C6 counterexample: the claim says a zero count is returned only together
with a non-nil error, including for a write of an empty slice.  A write of
the empty slice on a clean writer returns count 0 with a nil error: the
chunking loop never runs and Write returns (0, nil). -/
theorem c6_counterexample :
    writerWrite toyCodec 1000 initWriter [] = ((0, none), initWriter)
    ∧ ¬((writerWrite toyCodec 1000 initWriter []).1.1 = 0 →
        (writerWrite toyCodec 1000 initWriter []).1.2 ≠ none) := by
  refine ⟨by decide, by decide⟩

/-- C6 (amended): writer.Write returns the full input length exactly when it
returns a nil error and returns 0 on any error (all-or-nothing per call);
for a non-empty input a non-zero count is returned if and only if the error
is nil.  For the empty input the count is 0 with a nil error. -/
theorem c6_write_contract (c : BlockCodec) (cap : Nat) (st : WriterState) (p : List Nat) :
    ((writerWrite c cap st p).1.2 = none → (writerWrite c cap st p).1.1 = p.length)
    ∧ ((writerWrite c cap st p).1.2 ≠ none → (writerWrite c cap st p).1.1 = 0)
    ∧ (p ≠ [] → ((writerWrite c cap st p).1.1 ≠ 0 ↔ (writerWrite c cap st p).1.2 = none)) := by
  cases he : st.err with
  | some e =>
    unfold writerWrite
    rw [he]
    refine ⟨fun h => absurd h (by simp), fun _ => rfl, fun hp => by simp⟩
  | none =>
    unfold writerWrite
    rw [he]
    have hspec := writerWriteLoop_spec c cap (chunks p) st 0
    refine ⟨fun h => ?_, hspec.2, fun hp => ⟨fun hne => ?_, fun hnone => ?_⟩⟩
    · rw [hspec.1 h, chunks_length_sum]
      omega
    · by_contra hnone
      exact hne (hspec.2 hnone)
    · rw [hspec.1 hnone, chunks_length_sum]
      intro h0
      exact hp (List.length_eq_zero.mp (by omega))

/-- Witness for C6 (amended) at a one-byte write on a clean writer. -/
theorem c6_write_contract_witness :
    (writerWrite toyCodec 1000 initWriter [5]).1.1 ≠ 0
      ↔ (writerWrite toyCodec 1000 initWriter [5]).1.2 = none :=
  (c6_write_contract toyCodec 1000 initWriter [5]).2.2 (by decide)

/-! ### Claim C7 -/

/-- C7 (code bug): Reader.Reset claims (in its own documentation) to leave
the reader equivalent to a fresh NewReader, and the spec says the marker-seen
flag resets so a new stream must present its own marker.  The code resets
only the latched error, the buffer and the channel: seenStreamID is not
cleared.  Concretely, after reading a valid stream and resetting onto a
stream that begins directly with a data chunk (no stream marker), Read
succeeds and returns the chunk's bytes, whereas a fresh Reader on the same
stream fails with the missing stream identifier error. -/
theorem c7_reset_keeps_marker_flag :
    ((readerRead toyCodec (initReader exOneStream) 1).2).seen = true
    ∧ readerReset ((readerRead toyCodec (initReader exOneStream) 1).2) exNoMarker
      = { err := none, seen := true, buf := [], input := exNoMarker }
    ∧ (readerRead toyCodec
        (readerReset ((readerRead toyCodec (initReader exOneStream) 1).2) exNoMarker) 1).1
      = ([3], none)
    ∧ (readerRead toyCodec (initReader exNoMarker) 1).1 = ([], some .missingStreamID) := by
  refine ⟨by decide, by decide, by decide, by decide⟩

/-! ### Claim C8 -/

/-- C8: an emitted block is tagged UncompressedBlock carrying the raw bytes
when the compressed form is not shorter than the raw slice, and
CompressedBlock carrying the compressed bytes otherwise; in both cases the
declared length field decodes to the encoded-content length plus 4 and the
stored 4-byte checksum unmasks to the CRC32 of the raw slice p — never of
the encoded representation. -/
theorem c8_block_encoding (c : BlockCodec) (p : List Nat) (h : p.length ≤ maxBlockSize) :
    ∃ tag block,
      writeFrame c p
        = tag :: (encLE24 (block.length + 4) ++ encLE32 (maskChecksum (crc32C p)) ++ block)
      ∧ ((c.encode p).length ≥ p.length → tag = blockUncompressed ∧ block = p)
      ∧ ((c.encode p).length < p.length → tag = blockCompressed ∧ block = c.encode p)
      ∧ decodeLength ((writeFrame c p).getD 1 0) ((writeFrame c p).getD 2 0)
          ((writeFrame c p).getD 3 0) = block.length + 4
      ∧ unmaskChecksum (storedChecksum ((writeFrame c p).drop 4)) = crc32C p := by
  have hmax : maxBlockSize = 65536 := rfl
  by_cases hc : (c.encode p).length ≥ p.length
  · refine ⟨blockUncompressed, p, ?_, fun _ => ⟨rfl, rfl⟩, fun hlt => absurd hc (by omega),
      ?_, ?_⟩
    · unfold writeFrame
      rw [if_pos hc]
    · unfold writeFrame
      rw [if_pos hc]
      simp only [encLE24, List.cons_append, List.nil_append, List.getD_cons_zero,
        List.getD_cons_succ]
      exact decodeLength_encLE24 _ (by omega)
    · unfold writeFrame
      rw [if_pos hc]
      simp only [encLE24, List.cons_append, List.nil_append, List.drop_succ_cons,
        List.drop_zero]
      rw [storedChecksum_encLE32_append _ _ (maskChecksum_lt _)]
      exact unmask_mask _ (crc32C_lt p)
  · refine ⟨blockCompressed, c.encode p, ?_, fun hge => absurd hge hc, fun _ => ⟨rfl, rfl⟩,
      ?_, ?_⟩
    · unfold writeFrame
      rw [if_neg hc]
    · unfold writeFrame
      rw [if_neg hc]
      simp only [encLE24, List.cons_append, List.nil_append, List.getD_cons_zero,
        List.getD_cons_succ]
      exact decodeLength_encLE24 _ (by omega)
    · unfold writeFrame
      rw [if_neg hc]
      simp only [encLE24, List.cons_append, List.nil_append, List.drop_succ_cons,
        List.drop_zero]
      rw [storedChecksum_encLE32_append _ _ (maskChecksum_lt _)]
      exact unmask_mask _ (crc32C_lt p)

/-- Witness for C8 at the one-byte block [5] (stored as a literal block by
the toy codec). -/
theorem c8_block_encoding_witness :
    ∃ tag block,
      writeFrame toyCodec [5]
        = tag :: (encLE24 (block.length + 4) ++ encLE32 (maskChecksum (crc32C [5])) ++ block)
      ∧ ((toyCodec.encode [5]).length ≥ ([5] : List Nat).length →
          tag = blockUncompressed ∧ block = [5])
      ∧ ((toyCodec.encode [5]).length < ([5] : List Nat).length →
          tag = blockCompressed ∧ block = toyCodec.encode [5])
      ∧ decodeLength ((writeFrame toyCodec [5]).getD 1 0) ((writeFrame toyCodec [5]).getD 2 0)
          ((writeFrame toyCodec [5]).getD 3 0) = block.length + 4
      ∧ unmaskChecksum (storedChecksum ((writeFrame toyCodec [5]).drop 4)) = crc32C [5] :=
  c8_block_encoding toyCodec [5] (by decide)

/-! ### Claim C9 -/

/-- C9 (code bug): Reader.WriteTo documents that it returns the number of
bytes written, and the claim says that on a sink failure it returns the
count of bytes the sink successfully accepted.  With a sink that accepts
exactly 1 byte, pushing a stream of two one-byte data chunks forwards the
first chunk (1 byte accepted), then fails on the second; WriteTo returns
count 2 — the already-forwarded chunk is counted twice, once by n += m in
the loop and again by n += wfallback.n on the error path — even though the
sink accepted only 1 byte (its total capacity).  The rest of the claim's
behaviour does hold and is recorded here too: the undelivered byte is
preserved in the reader's pending buffer, the reader's error is not
latched, and a subsequent Read serves that byte without touching the
source. -/
theorem c9_writeto_double_count :
    readerWriteTo toyCodec 1 (initReader exChunkStream)
      = ((2, some .sinkErr), { err := none, seen := true, buf := [7], input := [] })
    ∧ (2 : Nat) > 1
    ∧ (readerRead toyCodec ((readerWriteTo toyCodec 1 (initReader exChunkStream)).2) 1).1
      = ([7], none) := by
  refine ⟨by decide, by decide, by decide⟩

/-! ### Claim C10 -/

/-- C10: a stream-marker chunk is accepted at any position, is validated in
full (a declared length other than 6 or a payload other than "sNaPpY" is a
format error), sets the marker-seen flag and produces no output; hence the
concatenation of two well-formed streams decodes to the concatenation of
their data. -/
theorem c10_marker_anywhere (c : BlockCodec)
    (hdec : ∀ p, c.decode (c.encode p) = some p)
    (hdlen : ∀ p, c.decodedLen (c.encode p) = some p.length) :
    (∀ s r, nextFrame c s (streamID ++ r) = nextFrame c true r)
    ∧ (∀ s a b d r, ¬(a = 0x06 ∧ b = 0x00 ∧ d = 0x00) →
        nextFrame c s (0xff :: a :: b :: d :: r) = (s, .error .badStreamIDLength))
    ∧ (∀ s r, ¬(r.length < 6) → r.take 6 ≠ streamID.drop 4 →
        nextFrame c s (0xff :: 0x06 :: 0x00 :: 0x00 :: r) = (s, .error .badStreamIDBlock))
    ∧ (∀ A B, decodeStream c (encodeStream c A ++ encodeStream c B) = .ok (A ++ B)) := by
  refine ⟨fun s r => nextFrame_streamID c s r, ?_, ?_,
    fun A B => decodeStream_concat c hdec hdlen A B⟩
  · intro s a b d r hne
    rw [nextFrame_cons4]
    rw [if_pos (by decide)]
    rw [if_pos (by
      rw [show streamID.take 4 = [0xff, 0x06, 0x00, 0x00] from rfl]
      simp only [ne_eq, List.cons.injEq, and_true, true_and]
      simpa using hne)]
  · intro s r h6 hne
    rw [nextFrame_cons4]
    rw [if_pos (by decide), if_neg (by decide), if_neg h6, if_pos hne]

/-- Witness for C10: a mid-stream marker, a malformed marker header, and the
concatenation of two concrete streams. -/
theorem c10_marker_anywhere_witness :
    nextFrame toyCodec false (streamID ++ exNoMarker) = nextFrame toyCodec true exNoMarker
    ∧ nextFrame toyCodec true (0xff :: 0x07 :: 0x00 :: 0x00 :: ([] : List Nat))
      = (true, .error .badStreamIDLength)
    ∧ decodeStream toyCodec (encodeStream toyCodec [1] ++ encodeStream toyCodec [2])
      = .ok [1, 2] :=
  ⟨(c10_marker_anywhere toyCodec toy_decode_encode toy_decodedLen_encode).1 false exNoMarker,
   (c10_marker_anywhere toyCodec toy_decode_encode toy_decodedLen_encode).2.1 true
     0x07 0x00 0x00 [] (by decide),
   (c10_marker_anywhere toyCodec toy_decode_encode toy_decodedLen_encode).2.2.2 [1] [2]⟩

end Snappyframed
